import Mathlib

/-!
Shallow embedding of the `backend-irt` repository (IRT 1PL exam scoring
engine) and verification of its natural-language specification.

Sources embedded:
* `src/services/irt_service.py` — class `IRTProcessor`
  (`probability_correct`, `log_likelihood`, `estimate_theta`,
  `update_b_parameter`, `scale_to_100`, `process_submission`,
  `parse_answers`, `check_answer`)
* `src/routes/irt_routes.py` — `submit_answers` (item-count guard),
  `get_submission_result` (ranking / percentile), `update_b_parameters`
  (difficulty recalibration)
* `src/models/irt_models.py` — record shapes.

Modelling conventions: Python strings are Lean `String` / `List Char`;
Python floats are modelled as `ℚ` where the code only does field
arithmetic and comparisons, and as `ℝ` where the spec speaks about
`exp`/`log`; Python dicts keyed by `int` are association lists with
in-place overwrite (`upsert`); the scipy bounded scalar minimizer is an
abstract parameter constrained by its documented contract.
-/

namespace BackendIRT

/-- Python `str.strip` whitespace class (ASCII subset used by the data). -/
def isPyWhitespace (c : Char) : Bool :=
  c == ' ' || c == '\t' || c == '\n' || c == '\r' || c == '\x0b' || c == '\x0c'

/-- Python `str.strip()` on a character list: drop whitespace from both ends. -/
def stripChars (l : List Char) : List Char :=
  ((l.dropWhile isPyWhitespace).reverse.dropWhile isPyWhitespace).reverse

/-- Python `str.strip()` on a `String`. -/
def pyStrip (s : String) : String :=
  String.mk (stripChars s.data)

/-- Python `str.upper()` on one character (ASCII model). -/
def pyUpperChar : Char → Char
  | 'a' => 'A' | 'b' => 'B' | 'c' => 'C' | 'd' => 'D' | 'e' => 'E'
  | 'f' => 'F' | 'g' => 'G' | 'h' => 'H' | 'i' => 'I' | 'j' => 'J'
  | 'k' => 'K' | 'l' => 'L' | 'm' => 'M' | 'n' => 'N' | 'o' => 'O'
  | 'p' => 'P' | 'q' => 'Q' | 'r' => 'R' | 's' => 'S' | 't' => 'T'
  | 'u' => 'U' | 'v' => 'V' | 'w' => 'W' | 'x' => 'X' | 'y' => 'Y'
  | 'z' => 'Z'
  | c => c

/-- Python `str.upper()` on a `String` (ASCII model). -/
def pyUpper (s : String) : String :=
  String.mk (s.data.map pyUpperChar)

/-- Split a character list at every newline (Python `str.split` with a
separator: adjacent separators produce empty pieces). -/
def splitOnNl : List Char → List (List Char)
  | [] => [[]]
  | c :: t =>
    if c == '\n' then [] :: splitOnNl t
    else
      match splitOnNl t with
      | [] => [[c]]
      | h :: r => (c :: h) :: r

/-- Split a list at the first character satisfying `p`: returns the prefix
before it and, when found, the remainder after it. -/
def splitFirst (p : Char → Bool) : List Char → List Char × Option (List Char)
  | [] => ([], none)
  | c :: t =>
    if p c then ([], some t)
    else
      let r := splitFirst p t
      (c :: r.1, r.2)

/-- Numeric value of a list of decimal digits. -/
def digitsVal (l : List Char) : ℕ :=
  l.foldl (fun a c => a * 10 + (c.toNat - 48)) 0

/-- Validity of the tail of a Python digit run: after a digit, either the
run ends, or an underscore followed by a digit, or another digit. -/
def usAfterDigit : List Char → Bool
  | [] => true
  | c :: t =>
    if c == '_' then
      match t with
      | [] => false
      | d :: t' => d.isDigit && usAfterDigit t'
    else c.isDigit && usAfterDigit t

/-- A Python digit run: non-empty digits with single underscores allowed
strictly between digits (as accepted by `int()` / `float()`). -/
def usRun : List Char → Bool
  | [] => false
  | c :: t => c.isDigit && usAfterDigit t

/-- Parse a Python digit run into its numeric value. -/
def pyNatUS (l : List Char) : Option ℕ :=
  if usRun l then some (digitsVal (l.filter (fun c => c != '_'))) else none

/-- Optional leading sign of a numeric literal: whether it is negative,
and the remaining characters. -/
def pySign (l : List Char) : Bool × List Char :=
  match l with
  | [] => (false, [])
  | c :: t =>
    if c == '+' then (false, t)
    else if c == '-' then (true, t)
    else (false, c :: t)

/-- Python `int(str)`: strip whitespace, optional sign, digit run. -/
def pyIntChars (l : List Char) : Option ℤ :=
  let s := pySign (stripChars l)
  (pyNatUS s.2).map (fun n => if s.1 then -(n : ℤ) else (n : ℤ))

/-- Mantissa of a Python float literal: `D [. D?] | D. | . D` with digit
runs as in `pyNatUS`; value as an exact rational. -/
def pyMant (l : List Char) : Option ℚ :=
  match splitFirst (fun c => c == '.') l with
  | (ip, none) => (pyNatUS ip).map (fun n => (n : ℚ))
  | (ip, some fp) =>
    if (ip.isEmpty || usRun ip) && (fp.isEmpty || usRun fp) &&
        !(ip.isEmpty && fp.isEmpty) then
      some ((digitsVal (ip.filter (fun c => c != '_')) : ℚ) +
        (digitsVal (fp.filter (fun c => c != '_')) : ℚ) /
          10 ^ (fp.filter (fun c => c != '_')).length)
    else none

/-- Exponent of a Python float literal: optional sign, digit run. -/
def pyExp (l : List Char) : Option ℤ :=
  let s := pySign l
  (pyNatUS s.2).map (fun n => if s.1 then -(n : ℤ) else (n : ℤ))

/-- Unsigned part of a Python float literal: mantissa with an optional
`e`/`E` exponent. -/
def pyFloatMag (l : List Char) : Option ℚ :=
  match splitFirst (fun c => c == 'e' || c == 'E') l with
  | (mant, none) => pyMant mant
  | (mant, some ex) =>
    match pyMant mant, pyExp ex with
    | some m, some e => some (m * 10 ^ e)
    | _, _ => none

/-- Python `float(str)` on a character list (finite decimal literals,
modelled as exact rationals): strip whitespace, optional sign, magnitude. -/
def pyFloatChars (l : List Char) : Option ℚ :=
  let s := pySign (stripChars l)
  (pyFloatMag s.2).map (fun q => if s.1 then -q else q)

/-- Python `float(str)` on a `String`. -/
def pyFloat (s : String) : Option ℚ :=
  pyFloatChars s.data

/-- Python dict assignment `d[k] = v` on an association list: replace the
value at an existing key in place, otherwise append the new binding. -/
def upsert (k : ℤ) (v : String) : List (ℤ × String) → List (ℤ × String)
  | [] => [(k, v)]
  | e :: t => if e.1 = k then (k, v) :: t else e :: upsert k v t

/-- Python `d.get(k)` on an association list. -/
def lookupA (m : List (ℤ × String)) (k : ℤ) : Option String :=
  (m.find? (fun e => e.1 = k)).map (fun e => e.2)

/-- The `IRTProcessor` construction parameters (`irt_service.py`, `__init__`):
ability bounds, defaulting to `[-3, 3]`. -/
structure IRTProcessor where
  theta_min : ℚ := -3
  theta_max : ℚ := 3

/-- The module-level `irt_processor = IRTProcessor()` of `irt_routes.py`. -/
def irt_processor : IRTProcessor := {}

/-- One row of the `Question` model (the fields read by the scoring code). -/
structure Question where
  question_number : ℤ
  question_type : String
  correct_answer : String
  b_parameter : ℚ

/-- One row of the `Submission` model (the fields read by ranking and
recalibration); nullable float columns are `Option ℚ`, read back with
Python `x or 0`. -/
structure SubmissionRec where
  id : ℕ
  answers : List (ℤ × String)
  theta_total : Option ℚ
  total_score : Option ℚ

/-- One row of the `Exam` model (the fields the claims mention).
`part_division` is modelled from the spec: the code stores it as the
string column `part_division` (default `"40-20-40"`) and never reads it
when scoring; the spec (§3) describes it as an ordered triple of part
sizes, so it is embedded directly as that list of sizes. -/
structure ExamRec where
  code : String
  total_questions : ℕ
  part_division : List ℕ

/-- `IRTProcessor.check_answer`: grade one student answer against one
item's correct answer and type. -/
def check_answer (student_answer correct_answer question_type : String) : Bool :=
  if student_answer = "" || correct_answer = "" then false
  else
    let s := pyUpper (pyStrip student_answer)
    let c := pyUpper (pyStrip correct_answer)
    if question_type = "multiple_choice" then s = c
    else if question_type = "multiple_answer" then s = c
    else if question_type = "true_false" then s = c
    else if question_type = "fill_number" then
      match pyFloat s, pyFloat c with
      | some a, some b => |a - b| < 1 / 100
      | _, _ => false
    else if question_type = "fill_text" || question_type = "drag_drop" then s = c
    else false

/-- One line of `IRTProcessor.parse_answers`: strip the line, skip it when
empty, split at the first space (`line.split(' ', 1)`), skip when there is
no second part or the first part is not an `int` literal, otherwise yield
the item number and the stripped remainder. -/
def lineEntry (line : List Char) : Option (ℤ × String) :=
  let l := stripChars line
  if l.isEmpty then none
  else
    match splitFirst (fun c => c == ' ') l with
    | (_, none) => none
    | (tok, some rest) =>
      match pyIntChars tok with
      | none => none
      | some n => some (n, String.mk (stripChars rest))

/-- The newline-split lines of the stripped answer text (`parse_answers`
returns the empty map outright on falsy input). -/
def pyLines (text : String) : List (List Char) :=
  if text = "" then [] else splitOnNl (stripChars text.data)

/-- The well-formed `(item number, answer)` entries of the answer text, in
line order. -/
def pyEntries (text : String) : List (ℤ × String) :=
  (pyLines text).filterMap lineEntry

/-- `IRTProcessor.parse_answers`: fold the well-formed entries into a dict,
later lines overwriting earlier ones. -/
def parse_answers (text : String) : List (ℤ × String) :=
  (pyEntries text).foldl (fun acc e => upsert e.1 e.2 acc) []

/-- The result dictionary of `IRTProcessor.process_submission`. -/
structure SubmissionResult where
  responses : List ℕ
  theta_part1 : ℚ
  theta_part2 : ℚ
  theta_part3 : ℚ
  theta_total : ℚ
  score_part1 : ℚ
  score_part2 : ℚ
  score_part3 : ℚ
  total_score : ℚ
  parsed_answers : List (ℤ × String)

/-- `IRTProcessor.scale_to_100`: linear rescale of θ to the 0–100 range. -/
def scale_to_100 (p : IRTProcessor) (theta : ℚ) : ℚ :=
  (theta - p.theta_min) / (p.theta_max - p.theta_min) * 100

/-- `IRTProcessor.process_submission`, parameterized by the ability
estimator `est` (the code calls `self.estimate_theta`, whose scipy search
is abstracted; see `estimate_theta` below for its own embedding): parse
the answers, grade each question in order into a 0/1 response vector with
a parallel difficulty vector, slice both at the fixed indices 40/60/100,
estimate θ per slice and overall, and rescale each θ. -/
def process_submission (p : IRTProcessor) (est : List ℕ → List ℚ → ℚ)
    (answers : String) (questions : List Question) : SubmissionResult :=
  let parsed := parse_answers answers
  let responses := questions.map (fun q =>
    if check_answer ((lookupA parsed q.question_number).getD "")
        q.correct_answer q.question_type then 1 else 0)
  let b_parameters := questions.map (fun q => q.b_parameter)
  let theta_part1 := est (responses.take 40) (b_parameters.take 40)
  let theta_part2 := est ((responses.drop 40).take 20) ((b_parameters.drop 40).take 20)
  let theta_part3 := est ((responses.drop 60).take 40) ((b_parameters.drop 60).take 40)
  let theta_total := est responses b_parameters
  { responses := responses
    theta_part1 := theta_part1
    theta_part2 := theta_part2
    theta_part3 := theta_part3
    theta_total := theta_total
    score_part1 := scale_to_100 p theta_part1
    score_part2 := scale_to_100 p theta_part2
    score_part3 := scale_to_100 p theta_part3
    total_score := scale_to_100 p theta_total
    parsed_answers := parsed }

/-- `IRTProcessor.update_b_parameter`: mean total θ of the students who
answered the item correctly, 0.0 on empty inputs or no correct answers. -/
def update_b_parameter (question_responses : List ℕ) (student_thetas : List ℚ) : ℚ :=
  if question_responses.isEmpty || student_thetas.isEmpty then 0
  else
    let correct_thetas :=
      ((student_thetas.zip question_responses).filter (fun e => e.2 = 1)).map
        (fun e => e.1)
    if correct_thetas.length = 0 then 0
    else correct_thetas.sum / correct_thetas.length

/-- Whether a stored submission's re-graded answer to `q` is correct
(`irt_routes.update_b_parameters`, inner loop: the answer map is read back
with default `''` and re-graded with `check_answer`). -/
def regradeCorrect (q : Question) (s : SubmissionRec) : Bool :=
  check_answer ((lookupA s.answers q.question_number).getD "")
    q.correct_answer q.question_type

/-- `irt_routes.update_b_parameters`: the new difficulty of every question
of the exam. With fewer than 5 submissions nothing is updated (the stored
difficulties are returned unchanged); otherwise each question's difficulty
is recomputed by `update_b_parameter` from the re-graded responses and the
submissions' total θ (`None` read as 0). -/
def update_b_parameters (questions : List Question) (submissions : List SubmissionRec) :
    List ℚ :=
  if submissions.length < 5 then questions.map (fun q => q.b_parameter)
  else
    questions.map (fun q =>
      let question_responses := submissions.map (fun s =>
        if regradeCorrect q s then 1 else 0)
      let student_thetas := submissions.map (fun s => s.theta_total.getD 0)
      update_b_parameter question_responses student_thetas)

/-- `irt_routes.submit_answers`, item-count guard onward: reject unless the
exam has exactly 100 stored questions, otherwise score the submission (the
created `Submission` row copies the returned result). The exam row itself
is not consulted by this check. -/
def submit_answers (p : IRTProcessor) (est : List ℕ → List ℚ → ℚ)
    (_exam : ExamRec) (questions : List Question) (answers : String) :
    Except String SubmissionResult :=
  if questions.length ≠ 100 then Except.error "De thi chua du 100 cau hoi"
  else Except.ok (process_submission p est answers questions)

/-- Sort key of the ranking in `irt_routes.get_submission_result`:
`x.total_score or 0`. -/
def keyScore (s : SubmissionRec) : ℚ :=
  s.total_score.getD 0

/-- Stable descending insertion: `s` goes in front of the first element
whose key is not greater than its own. -/
def insertDesc (s : SubmissionRec) : List SubmissionRec → List SubmissionRec
  | [] => [s]
  | t :: ts => if keyScore s < keyScore t then t :: insertDesc s ts else s :: t :: ts

/-- Python `sorted(submissions, key score, reverse=True)`: a stable sort by
total score descending, embedded as stable insertion sort. -/
def sortDesc : List SubmissionRec → List SubmissionRec
  | [] => []
  | s :: rest => insertDesc s (sortDesc rest)

/-- Position loop of `get_submission_result`: 1-based index of the first
submission with the target id in the sorted list, defaulting to 1. -/
def submission_position (sorted : List SubmissionRec) (targetId : ℕ) : ℕ :=
  match sorted.findIdx? (fun s => s.id = targetId) with
  | some i => i + 1
  | none => 1

/-- Python `int()` applied to a rational: truncation toward zero. -/
def pyTrunc (q : ℚ) : ℤ :=
  if q < 0 then -(⌊-q⌋) else ⌊q⌋

/-- Percentile formula of `get_submission_result`:
`int((N - position + 1) / N * 100)`. -/
def submission_percentile (n position : ℕ) : ℤ :=
  pyTrunc (((n : ℚ) - position + 1) / n * 100)

/-- Ranking block of `get_submission_result`: sort all submissions of the
exam by total score descending, locate the target, report its 1-based
position and percentile. -/
def get_submission_ranking (subs : List SubmissionRec) (targetId : ℕ) : ℕ × ℤ :=
  let sorted := sortDesc subs
  let position := submission_position sorted targetId
  (position, submission_percentile sorted.length position)

/-- `IRTProcessor.probability_correct`: the 1PL logistic response
probability `1 / (1 + exp(-(θ - b)))`. -/
noncomputable def probability_correct (theta b : ℝ) : ℝ :=
  1 / (1 + Real.exp (-(theta - b)))

/-- `np.clip(prob, epsilon, 1 - epsilon)` with `epsilon = 1e-10`. -/
noncomputable def clipProb (x : ℝ) : ℝ :=
  min (max x (1 / 10 ^ 10)) (1 - 1 / 10 ^ 10)

/-- `IRTProcessor.log_likelihood`: the clamped Rasch log-likelihood
`Σ r_i·log(P_i) + (1 - r_i)·log(1 - P_i)` over paired responses and
difficulties. -/
noncomputable def log_likelihood (theta : ℝ) (responses : List ℕ) (bs : List ℝ) : ℝ :=
  ((responses.zip bs).map (fun rb =>
    (rb.1 : ℝ) * Real.log (clipProb (probability_correct theta rb.2)) +
      (1 - (rb.1 : ℝ)) * Real.log (1 - clipProb (probability_correct theta rb.2)))).sum

/-- `IRTProcessor.estimate_theta`, with scipy's
`minimize_scalar(..., bounds=(theta_min, theta_max), method='bounded')`
abstracted as `opt f lo hi = (x, success)`: return 0.0 on an empty
response or difficulty vector, run the bounded minimizer on the negated
log-likelihood, and return its point on success and 0.0 otherwise. -/
noncomputable def estimate_theta (p : IRTProcessor)
    (opt : (ℝ → ℝ) → ℝ → ℝ → ℝ × Bool) (responses : List ℕ) (bs : List ℝ) : ℝ :=
  if responses.length = 0 ∨ bs.length = 0 then 0
  else
    let result := opt (fun theta => -log_likelihood theta responses bs)
      ((p.theta_min : ℝ)) ((p.theta_max : ℝ))
    if result.2 then result.1 else 0

/-- Contract of scipy's bounded scalar minimizer, as the spec states it: on
success the returned point lies in the bound interval and minimizes the
objective there. -/
def OptContract (opt : (ℝ → ℝ) → ℝ → ℝ → ℝ × Bool) : Prop :=
  ∀ f : ℝ → ℝ, ∀ lo hi : ℝ, (opt f lo hi).2 = true →
    (opt f lo hi).1 ∈ Set.Icc lo hi ∧
      ∀ x ∈ Set.Icc lo hi, f (opt f lo hi).1 ≤ f x

/-- Modelled from the spec: contiguous partition of a vector into parts
whose boundaries are the cumulative sums of the division sizes (§4.5;
nothing in the source computes division-dependent boundaries). -/
def spec_partition {α : Type} (division : List ℕ) (xs : List α) : List (List α) :=
  match division with
  | [] => []
  | n :: rest => xs.take n :: spec_partition rest (xs.drop n)

/-- Modelled from the spec (C3, amended wording): one parsed line, split at
its first space character via `takeWhile`/`dropWhile` instead of the
source's `split(' ', 1)`. -/
def specLineSpace (line : List Char) : Option (ℤ × String) :=
  let l := stripChars line
  let tok := l.takeWhile (fun c => c != ' ')
  match l.dropWhile (fun c => c != ' ') with
  | [] => none
  | _ :: rest => (pyIntChars tok).map (fun n => (n, String.mk (stripChars rest)))

/-- Modelled from the spec (C3, amended wording): `parse` with each line
split at its first space character. -/
def spec_parse_space (text : String) : List (ℤ × String) :=
  ((pyLines text).filterMap specLineSpace).foldl (fun acc e => upsert e.1 e.2 acc) []

/-- Modelled from the spec (C3, claim wording §4.1): one parsed line, split
at its first whitespace run into an integer token and the trimmed
remainder; skipped when blank, lacking a second token, or with a
non-integer first token. -/
def specLineWsrun (line : List Char) : Option (ℤ × String) :=
  let l := stripChars line
  let tok := l.takeWhile (fun c => !isPyWhitespace c)
  let rest := (l.dropWhile (fun c => !isPyWhitespace c)).dropWhile isPyWhitespace
  if tok.isEmpty || rest.isEmpty then none
  else (pyIntChars tok).map (fun n => (n, String.mk (stripChars rest)))

/-- Modelled from the spec (C3, claim wording §4.1): `parse` with each line
split at its first whitespace run. -/
def spec_parse_wsrun (text : String) : List (ℤ × String) :=
  ((pyLines text).filterMap specLineWsrun).foldl (fun acc e => upsert e.1 e.2 acc) []

/-- An estimator that always returns zero (used to instantiate the
abstract estimator on concrete inputs). -/
def estZero : List ℕ → List ℚ → ℚ :=
  fun _ _ => 0

/-- An estimator that encodes the response slice it receives as a number,
so that distinct slices produce distinct estimates. -/
def estEnc : List ℕ → List ℚ → ℚ :=
  fun rs _ => ((rs.foldl (fun a r => 2 * a + r) 0 : ℕ) : ℚ)

/-- A bounded minimizer that always reports non-convergence. -/
def optFail : (ℝ → ℝ) → ℝ → ℝ → ℝ × Bool :=
  fun _ _ _ => (0, false)

/-- A 100-item exam worksheet whose only correct answer for the submission
text `"41 A"` is item 41. -/
def questionsC1 : List Question :=
  (List.range 100).map (fun i =>
    { question_number := ((i + 1 : ℕ) : ℤ)
      question_type := "multiple_choice"
      correct_answer := if i + 1 = 41 then "A" else "B"
      b_parameter := 0 })

/-- An exam configured with the non-default part division 50/25/25. -/
def examC1 : ExamRec :=
  { code := "EX50", total_questions := 100, part_division := [50, 25, 25] }

/-- Three submissions with total scores 80, 95, 60 in insertion order. -/
def subsC2 : List SubmissionRec :=
  [ { id := 1, answers := [], theta_total := none, total_score := some 80 }
  , { id := 2, answers := [], theta_total := none, total_score := some 95 }
  , { id := 3, answers := [], theta_total := none, total_score := some 60 } ]

/-- A one-item exam worksheet for the recalibration witness. -/
def qsC4 : List Question :=
  [{ question_number := 1, question_type := "multiple_choice",
     correct_answer := "A", b_parameter := 7 }]

/-- Five submissions for the recalibration witness: three answered item 1
correctly (total θ 1, 2 and 3 — one of them in lower case), one answered
incorrectly, one did not answer. -/
def subsC4 : List SubmissionRec :=
  [ { id := 1, answers := [(1, "A")], theta_total := some 1, total_score := none }
  , { id := 2, answers := [(1, "A")], theta_total := some 2, total_score := none }
  , { id := 3, answers := [(1, "B")], theta_total := some 5, total_score := none }
  , { id := 4, answers := [], theta_total := none, total_score := none }
  , { id := 5, answers := [(1, "a")], theta_total := some 3, total_score := none } ]

/-- An exam configured with 50 items. -/
def examC9 : ExamRec :=
  { code := "EX9", total_questions := 50, part_division := [20, 10, 20] }

/-- A question row template. -/
def qC9 : Question :=
  { question_number := 1, question_type := "multiple_choice",
    correct_answer := "A", b_parameter := 0 }

/-- One hundred stored questions (more than `examC9` configures). -/
def questionsC9 : List Question :=
  List.replicate 100 qC9

/-- Three stored questions (fewer than 100). -/
def qsC9w : List Question :=
  List.replicate 3 qC9

end BackendIRT

namespace BackendIRT

theorem lt_length_of_findIdx?_eq_some {α : Type} {p : α → Bool} {l : List α} {i : ℕ}
    (h : l.findIdx? p = some i) : i < l.length :=
  (List.findIdx?_eq_some_iff_findIdx_eq.1 h).1

theorem lookupA_upsert (k : ℤ) (v : String) (m : List (ℤ × String)) (n : ℤ) :
    lookupA (upsert k v m) n = if n = k then some v else lookupA m n := by
  induction m with
  | nil =>
    by_cases h : n = k
    · simp [upsert, lookupA, h]
    · simp [upsert, lookupA, h, Ne.symm h]
  | cons e t ih =>
    rw [upsert]
    by_cases he : e.1 = k
    · rw [if_pos he]
      by_cases h : n = k
      · simp [lookupA, List.find?_cons, h]
      · simp [lookupA, List.find?_cons, h, Ne.symm h, he]
    · rw [if_neg he]
      by_cases hn : e.1 = n
      · have hnk : ¬(n = k) := fun hc => he (hn.trans hc)
        simp [lookupA, List.find?_cons, hn, hnk]
      · have h1 : lookupA (e :: upsert k v t) n = lookupA (upsert k v t) n := by
          simp [lookupA, List.find?_cons, hn]
        have h2 : lookupA (e :: t) n = lookupA t n := by
          simp [lookupA, List.find?_cons, hn]
        rw [h1, h2, ih]

theorem lookupA_foldl_upsert (l : List (ℤ × String)) (acc : List (ℤ × String)) (n : ℤ) :
    lookupA (l.foldl (fun a e => upsert e.1 e.2 a) acc) n =
      (((l.filter (fun e => e.1 = n)).getLast?.map (fun e => e.2)).or (lookupA acc n)) := by
  induction l generalizing acc with
  | nil => simp
  | cons e t ih =>
    rw [List.foldl_cons, ih, List.filter_cons]
    by_cases he : e.1 = n
    · rw [if_pos (by simpa using he)]
      cases hft : t.filter (fun e => decide (e.1 = n)) with
      | nil =>
        simp [lookupA_upsert, he.symm]
      | cons y ys =>
        rw [List.getLast?_cons_cons]
        have hz : ∃ z, (y :: ys).getLast? = some z :=
          ⟨(y :: ys).getLast (by simp), List.getLast?_eq_getLast _ (by simp)⟩
        obtain ⟨z, hz⟩ := hz
        rw [hz]
        simp
    · rw [if_neg (by simpa using he)]
      rw [lookupA_upsert, if_neg (fun hc => he (Eq.symm hc))]

theorem splitFirst_eq_take_drop (p : Char → Bool) (l : List Char) :
    splitFirst p l =
      (l.takeWhile (fun c => !p c),
        match l.dropWhile (fun c => !p c) with
        | [] => none
        | _ :: t => some t) := by
  induction l with
  | nil => rfl
  | cons c t ih =>
    by_cases hc : p c
    · simp [splitFirst, List.takeWhile_cons, List.dropWhile_cons, hc]
    · simp only [splitFirst, List.takeWhile_cons, List.dropWhile_cons, hc,
        Bool.false_eq_true, if_false, Bool.not_false, if_true, ih]

theorem lineEntry_eq_specLineSpace (line : List Char) :
    lineEntry line = specLineSpace line := by
  rw [lineEntry, specLineSpace, splitFirst_eq_take_drop]
  have hbne : (fun c : Char => !(c == ' ')) = (fun c : Char => c != ' ') := rfl
  rw [hbne]
  by_cases hl : (stripChars line).isEmpty
  · rw [if_pos hl]
    rw [List.isEmpty_iff.1 hl]
    rfl
  · rw [if_neg hl]
    cases hd : (stripChars line).dropWhile (fun c => c != ' ') with
    | nil => rfl
    | cons c rest =>
      cases hip : pyIntChars ((stripChars line).takeWhile (fun c => c != ' ')) with
      | none => simp [hip]
      | some n => simp [hip]

/-- C10: when several well-formed lines carry the same item number, `parse`
binds that number to the answer of the last such line — the generic
last-binding law over any input text, plus the concrete overwrite example. -/
theorem C10_last_line_wins :
    (∀ (text : String) (n : ℤ),
      lookupA (parse_answers text) n =
        ((pyEntries text).filter (fun e => e.1 = n)).getLast?.map (fun e => e.2)) ∧
    parse_answers "1 A\n1 B\n2 C" = [(1, "B"), (2, "C")] := by
  constructor
  · intro text n
    rw [parse_answers, lookupA_foldl_upsert]
    simp [lookupA]
  · decide

/-- C3 (amended): `parse` maps each non-empty line split at its first
space character (not at its first whitespace run) to an integer item
number and the trimmed remainder, silently skipping blank lines, lines
without a space, and lines whose first token is not an integer literal;
the claim's concrete example parses as stated. -/
theorem C3_parse_answers :
    (∀ text : String, parse_answers text = spec_parse_space text) ∧
    parse_answers "1 A\n2 BC\n\nbadline\n3 7.5" = [(1, "A"), (2, "BC"), (3, "7.5")] := by
  constructor
  · intro text
    rw [parse_answers, pyEntries, spec_parse_space,
      funext lineEntry_eq_specLineSpace]
  · decide

/-- C3 (counterexample): on the tab-separated line `"1\tA"` the code
yields the empty map — `line.split(' ', 1)` finds no space — while
splitting at the first whitespace run, as the claim states, would yield
the binding 1 ↦ "A". -/
theorem C3_counterexample :
    parse_answers "1\tA" = [] ∧ spec_parse_wsrun "1\tA" = [(1, "A")] := by
  constructor
  · decide
  · decide

theorem insertDesc_perm (s : SubmissionRec) (l : List SubmissionRec) :
    (insertDesc s l).Perm (s :: l) := by
  induction l with
  | nil => exact List.Perm.refl _
  | cons t ts ih =>
    rw [insertDesc]
    by_cases h : keyScore s < keyScore t
    · rw [if_pos h]
      exact (ih.cons t).trans (List.Perm.swap s t ts)
    · rw [if_neg h]

theorem sortDesc_perm (l : List SubmissionRec) : (sortDesc l).Perm l := by
  induction l with
  | nil => exact List.Perm.refl _
  | cons s rest ih =>
    exact (insertDesc_perm s (sortDesc rest)).trans (ih.cons s)

theorem pairwise_insertDesc (s : SubmissionRec) (l : List SubmissionRec)
    (h : l.Pairwise (fun a b => keyScore b ≤ keyScore a)) :
    (insertDesc s l).Pairwise (fun a b => keyScore b ≤ keyScore a) := by
  induction l with
  | nil => simp [insertDesc]
  | cons t ts ih =>
    rw [List.pairwise_cons] at h
    obtain ⟨ht, hts⟩ := h
    rw [insertDesc]
    by_cases hlt : keyScore s < keyScore t
    · rw [if_pos hlt, List.pairwise_cons]
      refine ⟨fun x hx => ?_, ih hts⟩
      rcases List.mem_cons.1 ((insertDesc_perm s ts).mem_iff.1 hx) with hx | hx
      · rw [hx]
        exact le_of_lt hlt
      · exact ht x hx
    · rw [if_neg hlt, List.pairwise_cons]
      refine ⟨fun x hx => ?_, List.pairwise_cons.2 ⟨ht, hts⟩⟩
      rcases List.mem_cons.1 hx with hx | hx
      · rw [hx]
        exact not_lt.1 hlt
      · exact le_trans (ht x hx) (not_lt.1 hlt)

theorem sortDesc_sorted (l : List SubmissionRec) :
    (sortDesc l).Pairwise (fun a b => keyScore b ≤ keyScore a) := by
  induction l with
  | nil => simp [sortDesc]
  | cons s rest ih => exact pairwise_insertDesc s (sortDesc rest) ih

theorem filter_insertDesc (q : ℚ) (s : SubmissionRec) (m : List SubmissionRec) :
    (insertDesc s m).filter (fun x => keyScore x = q) =
      if keyScore s = q then s :: m.filter (fun x => keyScore x = q)
      else m.filter (fun x => keyScore x = q) := by
  induction m with
  | nil => by_cases h : keyScore s = q <;> simp [insertDesc, h]
  | cons t ts ih =>
    rw [insertDesc]
    by_cases hlt : keyScore s < keyScore t
    · rw [if_pos hlt, List.filter_cons, ih]
      by_cases hs : keyScore s = q
      · have htq : ¬(keyScore t = q) := by
          intro hc
          rw [hs, ← hc] at hlt
          exact absurd hlt (lt_irrefl _)
        simp [hs, htq, List.filter_cons]
      · simp [hs, List.filter_cons]
    · rw [if_neg hlt, List.filter_cons, List.filter_cons]
      by_cases hs : keyScore s = q <;> by_cases htq : keyScore t = q <;>
        simp [hs, htq, List.filter_cons]

theorem sortDesc_stable (l : List SubmissionRec) (q : ℚ) :
    (sortDesc l).filter (fun x => keyScore x = q) = l.filter (fun x => keyScore x = q) := by
  induction l with
  | nil => rfl
  | cons s rest ih =>
    rw [sortDesc, filter_insertDesc, ih, List.filter_cons]
    by_cases hs : keyScore s = q <;> simp [hs]

theorem submission_position_bounds (sorted : List SubmissionRec) (targetId : ℕ)
    (hne : sorted ≠ []) :
    1 ≤ submission_position sorted targetId ∧
      submission_position sorted targetId ≤ sorted.length := by
  have hlen : 1 ≤ sorted.length := List.length_pos.2 hne
  rw [submission_position]
  cases hf : sorted.findIdx? (fun s => s.id = targetId) with
  | none =>
    simp [hf]
    omega
  | some i =>
    have hi := lt_length_of_findIdx?_eq_some hf
    simp [hf]
    omega

theorem pyTrunc_of_nonneg {q : ℚ} (h : 0 ≤ q) : pyTrunc q = ⌊q⌋ :=
  if_neg (not_lt.2 h)

/-- C2 (amended): the ranking sorts the exam's submissions by total score
descending, stably (ties keep insertion order: filtering any score class
is order-preserving) — position is the 1-based rank in that order — but
the percentile is `int(...)`, the floor of `(N - position + 1) / N * 100`,
not its rounding; on the 80/95/60 example the score-95 submission has
position 1 and percentile 100 and the score-60 submission has position 3
and percentile 33, as the claim states. -/
theorem C2_ranking (subs : List SubmissionRec) (targetId : ℕ) (hne : subs ≠ []) :
    (sortDesc subs).Perm subs ∧
    (sortDesc subs).Pairwise (fun a b => keyScore b ≤ keyScore a) ∧
    (∀ q : ℚ, (sortDesc subs).filter (fun x => keyScore x = q) =
      subs.filter (fun x => keyScore x = q)) ∧
    1 ≤ (get_submission_ranking subs targetId).1 ∧
    (get_submission_ranking subs targetId).1 ≤ subs.length ∧
    (get_submission_ranking subs targetId).2 =
      ⌊((subs.length : ℚ) - ((get_submission_ranking subs targetId).1 : ℚ) + 1) /
        (subs.length : ℚ) * 100⌋ ∧
    (get_submission_ranking subsC2 2).1 = 1 ∧
    (get_submission_ranking subsC2 2).2 = 100 ∧
    (get_submission_ranking subsC2 3).1 = 3 ∧
    (get_submission_ranking subsC2 3).2 = 33 := by
  have hsne : sortDesc subs ≠ [] := by
    intro hc
    have hperm := sortDesc_perm subs
    rw [hc] at hperm
    exact hne hperm.nil_eq.symm
  have hlen : (sortDesc subs).length = subs.length := (sortDesc_perm subs).length_eq
  obtain ⟨hp1, hp2⟩ := submission_position_bounds (sortDesc subs) targetId hsne
  have hrank : get_submission_ranking subs targetId =
      (submission_position (sortDesc subs) targetId,
        submission_percentile subs.length (submission_position (sortDesc subs) targetId)) := by
    rw [get_submission_ranking, hlen]
  have hn1 : 1 ≤ subs.length := hlen ▸ List.length_pos.2 hsne
  have hfloor : submission_percentile subs.length
      (submission_position (sortDesc subs) targetId) =
      ⌊((subs.length : ℚ) - (submission_position (sortDesc subs) targetId : ℚ) + 1) /
        (subs.length : ℚ) * 100⌋ := by
    rw [submission_percentile, pyTrunc_of_nonneg]
    have hc1 : ((submission_position (sortDesc subs) targetId : ℚ)) ≤ (subs.length : ℚ) :=
      Nat.cast_le.2 (hlen ▸ hp2)
    have hc0 : (0 : ℚ) ≤ (subs.length : ℚ) := Nat.cast_nonneg _
    have hnum : (0 : ℚ) ≤
        (subs.length : ℚ) - (submission_position (sortDesc subs) targetId : ℚ) + 1 := by
      linarith
    exact mul_nonneg (div_nonneg hnum hc0) (by norm_num)
  have hpos95 : submission_position (sortDesc subsC2) 2 = 1 := by decide
  have hpos60 : submission_position (sortDesc subsC2) 3 = 3 := by decide
  have hlen3 : (sortDesc subsC2).length = 3 := by decide
  have hr95 : get_submission_ranking subsC2 2 = (1, submission_percentile 3 1) := by
    rw [get_submission_ranking, hlen3, hpos95]
  have hr60 : get_submission_ranking subsC2 3 = (3, submission_percentile 3 3) := by
    rw [get_submission_ranking, hlen3, hpos60]
  refine ⟨sortDesc_perm subs, sortDesc_sorted subs, sortDesc_stable subs,
    ?_, ?_, ?_, ?_, ?_, ?_, ?_⟩
  · rw [hrank]
    exact hp1
  · rw [hrank]
    exact hlen ▸ hp2
  · rw [hrank]
    exact hfloor
  · rw [hr95]
  · rw [hr95]
    norm_num [submission_percentile, pyTrunc]
  · rw [hr60]
  · rw [hr60]
    norm_num [submission_percentile, pyTrunc]

/-- C2 (witness): the three-submission example list is non-empty and its
score-95 submission ranks first. -/
theorem C2_ranking_witness :
    subsC2 ≠ [] ∧ (get_submission_ranking subsC2 2).1 = 1 :=
  ⟨by simp [subsC2], (C2_ranking subsC2 2 (by simp [subsC2])).2.2.2.2.2.2.1⟩

theorem up_pws (c : Char) : isPyWhitespace (pyUpperChar c) = isPyWhitespace c := by
  unfold pyUpperChar
  split <;> rfl

theorem up_isDigit (c : Char) : (pyUpperChar c).isDigit = c.isDigit := by
  unfold pyUpperChar
  split <;> rfl

theorem up_dot (c : Char) : (pyUpperChar c == '.') = (c == '.') := by
  unfold pyUpperChar
  split <;> rfl

theorem up_usb (c : Char) : (pyUpperChar c == '_') = (c == '_') := by
  unfold pyUpperChar
  split <;> rfl

theorem up_usne (c : Char) : (pyUpperChar c != '_') = (c != '_') := by
  unfold pyUpperChar
  split <;> rfl

theorem up_plusb (c : Char) : (pyUpperChar c == '+') = (c == '+') := by
  unfold pyUpperChar
  split <;> rfl

theorem up_minusb (c : Char) : (pyUpperChar c == '-') = (c == '-') := by
  unfold pyUpperChar
  split <;> rfl

theorem up_expb (c : Char) :
    (pyUpperChar c == 'e' || pyUpperChar c == 'E') = (c == 'e' || c == 'E') := by
  unfold pyUpperChar
  split <;> rfl

theorem up_digit_fix {c : Char} (h : c.isDigit = true) : pyUpperChar c = c := by
  revert h
  unfold pyUpperChar
  split <;> intro h <;> first | rfl | exact absurd h (by decide)

theorem strip_map (l : List Char) :
    stripChars (l.map pyUpperChar) = (stripChars l).map pyUpperChar := by
  have hp : (isPyWhitespace ∘ pyUpperChar) = isPyWhitespace := funext up_pws
  rw [stripChars, stripChars, List.dropWhile_map, hp, ← List.map_reverse,
    List.dropWhile_map, hp, ← List.map_reverse]

theorem splitFirst_map (p : Char → Bool) (hp : ∀ c, p (pyUpperChar c) = p c)
    (l : List Char) :
    splitFirst p (l.map pyUpperChar) =
      ((splitFirst p l).1.map pyUpperChar,
        (splitFirst p l).2.map (fun x => x.map pyUpperChar)) := by
  induction l with
  | nil => rfl
  | cons c t ih =>
    rw [List.map_cons, splitFirst, splitFirst, hp c]
    by_cases hc : p c
    · simp [hc]
    · simp [hc, ih]

theorem usAfterDigit_map : ∀ l : List Char,
    usAfterDigit (l.map pyUpperChar) = usAfterDigit l
  | [] => rfl
  | c :: t => by
    rw [List.map_cons, usAfterDigit.eq_def, usAfterDigit.eq_def]
    dsimp only
    rw [up_usb]
    by_cases hc : (c == '_')
    · rw [if_pos hc, if_pos hc]
      cases t with
      | nil => rfl
      | cons d t' =>
        rw [List.map_cons]
        dsimp only
        rw [up_isDigit, usAfterDigit_map t']
    · rw [if_neg hc, if_neg hc, up_isDigit, usAfterDigit_map t]

theorem usAfterDigit_fix : ∀ l : List Char,
    usAfterDigit l = true → l.map pyUpperChar = l
  | [] => fun _ => rfl
  | c :: t => by
    rw [usAfterDigit.eq_def]
    dsimp only
    by_cases hc : (c == '_')
    · rw [if_pos hc]
      have hcu : c = '_' := by simpa using hc
      cases t with
      | nil => simp
      | cons d t' =>
        intro h
        obtain ⟨hd, ht'⟩ := Bool.and_eq_true_iff.1 h
        rw [List.map_cons, List.map_cons, hcu]
        rw [show pyUpperChar '_' = '_' from rfl, up_digit_fix hd, usAfterDigit_fix t' ht']
    · rw [if_neg hc]
      intro h
      obtain ⟨hd, ht⟩ := Bool.and_eq_true_iff.1 h
      rw [List.map_cons, up_digit_fix hd, usAfterDigit_fix t ht]

theorem usRun_map (l : List Char) : usRun (l.map pyUpperChar) = usRun l := by
  cases l with
  | nil => rfl
  | cons c t =>
    rw [List.map_cons, usRun, usRun, up_isDigit, usAfterDigit_map t]

theorem usRun_fix {l : List Char} (h : usRun l = true) : l.map pyUpperChar = l := by
  cases l with
  | nil => rfl
  | cons c t =>
    rw [usRun] at h
    obtain ⟨hd, ht⟩ := Bool.and_eq_true_iff.1 h
    rw [List.map_cons, up_digit_fix hd, usAfterDigit_fix t ht]

theorem pyNatUS_map (l : List Char) : pyNatUS (l.map pyUpperChar) = pyNatUS l := by
  rw [pyNatUS, pyNatUS, usRun_map]
  by_cases h : usRun l
  · rw [usRun_fix h]
  · rw [if_neg h, if_neg h]

theorem pySign_map (l : List Char) :
    pySign (l.map pyUpperChar) =
      ((pySign l).1, (pySign l).2.map pyUpperChar) := by
  cases l with
  | nil => rfl
  | cons c t =>
    rw [List.map_cons, pySign, pySign, up_plusb, up_minusb]
    by_cases hp : (c == '+')
    · simp [hp]
    · by_cases hm : (c == '-')
      · simp [hp, hm]
      · simp [hp, hm]

theorem pyExp_map (l : List Char) : pyExp (l.map pyUpperChar) = pyExp l := by
  rw [pyExp, pyExp, pySign_map, pyNatUS_map]

theorem map_fix_of_empty_or_usRun {l : List Char}
    (h : (l.isEmpty || usRun l) = true) : l.map pyUpperChar = l := by
  rcases Bool.or_eq_true_iff.1 h with h | h
  · rw [List.isEmpty_iff.1 h]
    rfl
  · exact usRun_fix h

theorem isEmpty_map (l : List Char) : (l.map pyUpperChar).isEmpty = l.isEmpty := by
  cases l <;> rfl

theorem pyMant_map (l : List Char) : pyMant (l.map pyUpperChar) = pyMant l := by
  rcases hsf : splitFirst (fun c => c == '.') l with ⟨ip, o⟩
  rw [pyMant, pyMant, splitFirst_map _ up_dot, hsf]
  cases o with
  | none =>
    simp only [Option.map_none']
    rw [pyNatUS_map]
  | some fp =>
    simp only [Option.map_some']
    by_cases h1 : (ip.isEmpty || usRun ip)
    · by_cases h2 : (fp.isEmpty || usRun fp)
      · rw [map_fix_of_empty_or_usRun h1, map_fix_of_empty_or_usRun h2]
      · rw [map_fix_of_empty_or_usRun h1]
        simp only [isEmpty_map, usRun_map]
        have hB : (fp.isEmpty || usRun fp) = false := by
          rwa [Bool.not_eq_true] at h2
        simp [hB]
    · simp only [isEmpty_map, usRun_map]
      have hA : (ip.isEmpty || usRun ip) = false := by
        rwa [Bool.not_eq_true] at h1
      simp [hA]

theorem pyFloatMag_map (l : List Char) :
    pyFloatMag (l.map pyUpperChar) = pyFloatMag l := by
  rcases hsf : splitFirst (fun c => c == 'e' || c == 'E') l with ⟨mant, o⟩
  rw [pyFloatMag, pyFloatMag, splitFirst_map _ up_expb, hsf]
  cases o with
  | none =>
    simp only [Option.map_none']
    rw [pyMant_map]
  | some ex =>
    simp only [Option.map_some']
    rw [pyMant_map, pyExp_map]

theorem pyFloatChars_map (l : List Char) :
    pyFloatChars (l.map pyUpperChar) = pyFloatChars l := by
  rw [pyFloatChars, pyFloatChars, strip_map, pySign_map, pyFloatMag_map]

theorem pyFloat_upper (s : String) : pyFloat (pyUpper s) = pyFloat s :=
  pyFloatChars_map s.data

/-- C6: for item type `fill_number`, grading parses both sides as real
numbers after trimming (the upper-casing the code also performs cannot
change a numeric parse) and accepts exactly when `|student − correct| <
0.01`; a parse failure or an empty side is a non-match, never an error;
`grade("7.004","7.00")` is true and `grade("7.05","7.00")` is false. -/
theorem C6_fill_number_grade :
    (∀ s c : String, check_answer s c "fill_number" = true ↔
      ∃ a b : ℚ, pyFloat (pyStrip s) = some a ∧ pyFloat (pyStrip c) = some b ∧
        |a - b| < 1 / 100) ∧
    check_answer "7.004" "7.00" "fill_number" = true ∧
    check_answer "7.05" "7.00" "fill_number" = false := by
  have hiff : ∀ s c : String, check_answer s c "fill_number" = true ↔
      ∃ a b : ℚ, pyFloat (pyStrip s) = some a ∧ pyFloat (pyStrip c) = some b ∧
        |a - b| < 1 / 100 := by
    intro s c
    rw [check_answer]
    by_cases hs : s = ""
    · subst hs
      have h0 : pyFloat (pyStrip "") = none := rfl
      simp [h0]
    · by_cases hc : c = ""
      · subst hc
        have h0 : pyFloat (pyStrip "") = none := rfl
        simp [h0]
      · rw [if_neg (by simp [hs, hc])]
        dsimp only
        rw [if_neg (by decide), if_neg (by decide), if_neg (by decide),
          if_pos (by decide : ("fill_number" : String) = "fill_number"),
          pyFloat_upper (pyStrip s), pyFloat_upper (pyStrip c)]
        cases h1 : pyFloat (pyStrip s) with
        | none => simp
        | some a =>
          cases h2 : pyFloat (pyStrip c) with
          | none => simp
          | some b => simp
  refine ⟨hiff, ?_, ?_⟩
  · rw [hiff]
    refine ⟨((7 : ℕ) : ℚ) + ((4 : ℕ) : ℚ) / 10 ^ (3 : ℕ),
      ((7 : ℕ) : ℚ) + ((0 : ℕ) : ℚ) / 10 ^ (2 : ℕ), rfl, rfl, ?_⟩
    rw [abs_sub_lt_iff]
    constructor <;> push_cast <;> norm_num
  · rw [Bool.eq_false_iff]
    intro hc
    obtain ⟨a, b, ha, hb, hlt⟩ := (hiff "7.05" "7.00").1 hc
    have e3 : pyFloat (pyStrip "7.05") =
        some (((7 : ℕ) : ℚ) + ((5 : ℕ) : ℚ) / 10 ^ (2 : ℕ)) := rfl
    have e4 : pyFloat (pyStrip "7.00") =
        some (((7 : ℕ) : ℚ) + ((0 : ℕ) : ℚ) / 10 ^ (2 : ℕ)) := rfl
    rw [e3] at ha
    rw [e4] at hb
    injection ha with ha'
    injection hb with hb'
    rw [← ha', ← hb'] at hlt
    rw [abs_sub_lt_iff] at hlt
    obtain ⟨hlt1, _⟩ := hlt
    push_cast at hlt1
    norm_num at hlt1

/-- C5: ability estimation returns 0.0 on an empty response or difficulty
vector and 0.0 when the bounded search reports non-convergence; when the
search succeeds (for any minimizer satisfying its contract), the returned
θ lies in `[θ_min, θ_max]` and maximizes the clamped Rasch log-likelihood
there. -/
theorem C5_estimate_theta (p : IRTProcessor) (opt : (ℝ → ℝ) → ℝ → ℝ → ℝ × Bool)
    (hopt : OptContract opt) :
    (∀ bs : List ℝ, estimate_theta p opt [] bs = 0) ∧
    (∀ rs : List ℕ, estimate_theta p opt rs [] = 0) ∧
    (∀ (rs : List ℕ) (bs : List ℝ),
      (opt (fun theta => -log_likelihood theta rs bs)
          ((p.theta_min : ℝ)) ((p.theta_max : ℝ))).2 = false →
      estimate_theta p opt rs bs = 0) ∧
    (∀ (rs : List ℕ) (bs : List ℝ),
      (opt (fun theta => -log_likelihood theta rs bs)
          ((p.theta_min : ℝ)) ((p.theta_max : ℝ))).2 = true →
      rs ≠ [] → bs ≠ [] →
      estimate_theta p opt rs bs ∈ Set.Icc ((p.theta_min : ℝ)) ((p.theta_max : ℝ)) ∧
      ∀ x ∈ Set.Icc ((p.theta_min : ℝ)) ((p.theta_max : ℝ)),
        log_likelihood x rs bs ≤ log_likelihood (estimate_theta p opt rs bs) rs bs) := by
  refine ⟨fun bs => by simp [estimate_theta], fun rs => by simp [estimate_theta],
    fun rs bs h => ?_, fun rs bs hsucc hrs hbs => ?_⟩
  · rw [estimate_theta]
    by_cases he : rs.length = 0 ∨ bs.length = 0
    · rw [if_pos he]
    · rw [if_neg he]
      simp [h]
  · have hne : ¬(rs.length = 0 ∨ bs.length = 0) := by
      simp [List.length_eq_zero, hrs, hbs]
    obtain ⟨hmem, hmin⟩ := hopt (fun theta => -log_likelihood theta rs bs)
      ((p.theta_min : ℝ)) ((p.theta_max : ℝ)) hsucc
    have hval : estimate_theta p opt rs bs =
        (opt (fun theta => -log_likelihood theta rs bs)
          ((p.theta_min : ℝ)) ((p.theta_max : ℝ))).1 := by
      rw [estimate_theta, if_neg hne]
      simp [hsucc]
    rw [hval]
    refine ⟨hmem, fun x hx => ?_⟩
    have h2 := hmin x hx
    simp only at h2
    linarith

/-- C5 (witness): instantiating the theorem with a minimizer that always
reports non-convergence, the estimate on the non-degenerate input
`([1], [0])` falls back to 0. -/
theorem C5_estimate_theta_witness :
    estimate_theta irt_processor optFail [1] [(0 : ℝ)] = 0 :=
  (C5_estimate_theta irt_processor optFail
    (fun f lo hi h => by simp [optFail] at h)).2.2.1 [1] [(0 : ℝ)] rfl

/-- C2 (counterexample): in the 80/95/60 example the score-80 submission
has position 2 and the code reports percentile `int(2/3*100) = 66`,
whereas the claim's formula `round((N - position + 1)/N*100)` gives 67. -/
theorem C2_percentile_counterexample :
    (get_submission_ranking subsC2 1).1 = 2 ∧
    (get_submission_ranking subsC2 1).2 = 66 ∧
    round ((((subsC2.length : ℚ)) - 2 + 1) / (subsC2.length : ℚ) * 100) = 67 := by
  have hpos80 : submission_position (sortDesc subsC2) 1 = 2 := by decide
  have hlen3 : (sortDesc subsC2).length = 3 := by decide
  have hr80 : get_submission_ranking subsC2 1 = (2, submission_percentile 3 2) := by
    rw [get_submission_ranking, hlen3, hpos80]
  refine ⟨?_, ?_, ?_⟩
  · rw [hr80]
  · rw [hr80]
    norm_num [submission_percentile, pyTrunc]
  · have : subsC2.length = 3 := by decide
    rw [this]
    norm_num [round_eq]

theorem zip_filter_map_eq (g : SubmissionRec → Bool) (f : SubmissionRec → ℚ)
    (subs : List SubmissionRec) :
    (((subs.map f).zip (subs.map fun s => if g s then (1 : ℕ) else 0)).filter
        (fun e => e.2 = 1)).map (fun e => e.1) = (subs.filter g).map f := by
  induction subs with
  | nil => rfl
  | cons s t ih =>
    by_cases hg : g s <;> simp [hg, List.filter_cons, ih]

/-- C1 (amended): `process_submission` always slices the ordered response
and difficulty vectors at the fixed cumulative boundaries of the division
(40, 20, 40) — slices 1–40, 41–60, 61–100 — and computes exactly four
ability estimates, one per fixed slice and one over the full vectors,
regardless of the exam's configured part division (which it never reads). -/
theorem C1_partition_fixed (p : IRTProcessor) (est : List ℕ → List ℚ → ℚ)
    (answers : String) (questions : List Question) :
    (process_submission p est answers questions).theta_part1 =
      est ((spec_partition [40, 20, 40] (process_submission p est answers questions).responses).getD 0 [])
        ((spec_partition [40, 20, 40] (questions.map fun q => q.b_parameter)).getD 0 []) ∧
    (process_submission p est answers questions).theta_part2 =
      est ((spec_partition [40, 20, 40] (process_submission p est answers questions).responses).getD 1 [])
        ((spec_partition [40, 20, 40] (questions.map fun q => q.b_parameter)).getD 1 []) ∧
    (process_submission p est answers questions).theta_part3 =
      est ((spec_partition [40, 20, 40] (process_submission p est answers questions).responses).getD 2 [])
        ((spec_partition [40, 20, 40] (questions.map fun q => q.b_parameter)).getD 2 []) ∧
    (process_submission p est answers questions).theta_total =
      est (process_submission p est answers questions).responses
        (questions.map fun q => q.b_parameter) := by
  refine ⟨?_, ?_, ?_, rfl⟩ <;>
    simp [process_submission, spec_partition, List.drop_drop]

/-- C1 (counterexample): for the exam `examC1`, configured with part
division 50/25/25, the second ability estimate of `process_submission` is
not taken over the second slice of the configured division — the code
slices at the fixed boundaries 40/60/100 instead. -/
theorem C1_counterexample :
    (process_submission irt_processor estEnc "41 A" questionsC1).theta_part2 ≠
      estEnc
        ((spec_partition examC1.part_division
          (process_submission irt_processor estEnc "41 A" questionsC1).responses).getD 1 [])
        ((spec_partition examC1.part_division
          (questionsC1.map fun q => q.b_parameter)).getD 1 []) := by
  have h1 : (process_submission irt_processor estEnc "41 A" questionsC1).responses =
      List.replicate 40 0 ++ 1 :: List.replicate 59 0 := by decide
  have h2 : (process_submission irt_processor estEnc "41 A" questionsC1).theta_part2 =
      estEnc (((List.replicate 40 0 ++ 1 :: List.replicate 59 0).drop 40).take 20)
        (((questionsC1.map fun q => q.b_parameter).drop 40).take 20) := by
    simp only [process_submission] at h1 ⊢
    rw [h1]
  rw [h2, h1]
  have h3 : (((List.replicate 40 0 ++ 1 :: List.replicate 59 0).drop 40).take 20).foldl
      (fun a r => 2 * a + r) 0 = 524288 := by decide
  have h4 : ((spec_partition examC1.part_division
      (List.replicate 40 0 ++ 1 :: List.replicate 59 0)).getD 1 []).foldl
      (fun a r => 2 * a + r) 0 = 0 := by decide
  simp only [estEnc, h3, h4]
  norm_num

/-- C4: recalibration is a complete no-op when fewer than 5 submissions
exist; with 5 or more, each item's new difficulty is the mean of the total
θ values (missing θ read as 0) of exactly the submissions whose re-graded
answer to that item is correct, and 0.0 when no submission answered it
correctly. -/
theorem C4_recalibration (questions : List Question) (subs : List SubmissionRec) :
    (subs.length < 5 →
      update_b_parameters questions subs = questions.map fun q => q.b_parameter) ∧
    (5 ≤ subs.length →
      update_b_parameters questions subs = questions.map fun q =>
        if (subs.filter (regradeCorrect q)).isEmpty then 0
        else ((subs.filter (regradeCorrect q)).map fun s => s.theta_total.getD 0).sum /
          ((subs.filter (regradeCorrect q)).length : ℚ)) := by
  constructor
  · intro h
    simp [update_b_parameters, h]
  · intro h
    have hne : subs ≠ [] := by
      intro hnil
      rw [hnil] at h
      simp at h
    rw [update_b_parameters, if_neg (by omega)]
    refine List.map_congr_left fun q _ => ?_
    rw [update_b_parameter]
    have hq : (subs.map fun s => if regradeCorrect q s then (1 : ℕ) else 0).isEmpty = false := by
      simp [List.isEmpty_iff, hne]
    have ht : (subs.map fun s => s.theta_total.getD 0).isEmpty = false := by
      simp [List.isEmpty_iff, hne]
    rw [if_neg (by simp [hq, ht])]
    rw [zip_filter_map_eq (fun s => regradeCorrect q s) (fun s => s.theta_total.getD 0)]
    by_cases hc : (subs.filter (regradeCorrect q)).isEmpty
    · simp [hc, List.isEmpty_iff.1 hc]
    · have hlen : ((subs.filter (regradeCorrect q)).map fun s => s.theta_total.getD 0).length ≠ 0 := by
        simp only [List.length_map]
        simp only [List.isEmpty_iff] at hc
        exact fun h0 => hc (List.length_eq_zero.1 h0)
      rw [if_neg hlen, if_neg hc]
      simp

/-- C4 (witness): with the concrete one-item exam `qsC4` and the five
submissions `subsC4`, the ≥5 branch of the recalibration theorem applies. -/
theorem C4_recalibration_witness :
    5 ≤ subsC4.length ∧
      update_b_parameters qsC4 subsC4 = qsC4.map fun q =>
        if (subsC4.filter (regradeCorrect q)).isEmpty then 0
        else ((subsC4.filter (regradeCorrect q)).map fun s => s.theta_total.getD 0).sum /
          ((subsC4.filter (regradeCorrect q)).length : ℚ) :=
  ⟨by decide, (C4_recalibration qsC4 subsC4).2 (by decide)⟩

/-- C7: `scale_to_100` is exactly the linear rescale
`(θ - θ_min) / (θ_max - θ_min) * 100`; it sends `θ_min` to 0 and `θ_max`
to 100, is affine and strictly monotone, and performs no clamping: inputs
beyond the bounds scale beyond 0–100. -/
theorem C7_scale_linear (p : IRTProcessor) (h : p.theta_min < p.theta_max) :
    (∀ theta : ℚ, scale_to_100 p theta =
      (theta - p.theta_min) / (p.theta_max - p.theta_min) * 100) ∧
    scale_to_100 p p.theta_min = 0 ∧
    scale_to_100 p p.theta_max = 100 ∧
    StrictMono (scale_to_100 p) ∧
    (∀ t1 t2 t : ℚ, scale_to_100 p (t1 + t * (t2 - t1)) =
      scale_to_100 p t1 + t * (scale_to_100 p t2 - scale_to_100 p t1)) ∧
    (∀ theta : ℚ, p.theta_max < theta → 100 < scale_to_100 p theta) ∧
    (∀ theta : ℚ, theta < p.theta_min → scale_to_100 p theta < 0) := by
  have hd : (0 : ℚ) < p.theta_max - p.theta_min := sub_pos.2 h
  have hd' : p.theta_max - p.theta_min ≠ 0 := ne_of_gt hd
  have hmin : scale_to_100 p p.theta_min = 0 := by
    simp [scale_to_100]
  have hmax : scale_to_100 p p.theta_max = 100 := by
    rw [scale_to_100, div_self hd']
    norm_num
  have hmono : StrictMono (scale_to_100 p) := by
    intro a b hab
    rw [scale_to_100, scale_to_100]
    have h1 : (a - p.theta_min) / (p.theta_max - p.theta_min) <
        (b - p.theta_min) / (p.theta_max - p.theta_min) :=
      div_lt_div_of_pos_right (by linarith) hd
    exact (mul_lt_mul_right (by norm_num : (0 : ℚ) < 100)).2 h1
  refine ⟨fun theta => rfl, hmin, hmax, hmono, fun t1 t2 t => ?_, fun theta ht => ?_,
    fun theta ht => ?_⟩
  · rw [scale_to_100, scale_to_100, scale_to_100]
    field_simp
    ring
  · have := hmono ht
    rw [hmax] at this
    exact this
  · have := hmono ht
    rw [hmin] at this
    exact this

/-- C7 (witness): the default processor has `θ_min = -3 < 3 = θ_max` and
its scaler sends 3 to 100. -/
theorem C7_scale_linear_witness :
    irt_processor.theta_min < irt_processor.theta_max ∧
      scale_to_100 irt_processor irt_processor.theta_max = 100 :=
  ⟨by decide, (C7_scale_linear irt_processor (by decide)).2.2.1⟩

/-- C8: the 1PL response probability `1 / (1 + exp(-(θ - b)))` lies
strictly between 0 and 1, strictly increases in θ and strictly decreases
in b. -/
theorem C8_probability_bounds_monotone :
    (∀ theta b : ℝ, probability_correct theta b ∈ Set.Ioo (0 : ℝ) 1) ∧
    (∀ b : ℝ, StrictMono fun theta => probability_correct theta b) ∧
    (∀ theta : ℝ, StrictAnti fun b => probability_correct theta b) := by
  have hden : ∀ x : ℝ, 0 < 1 + Real.exp x := fun x =>
    add_pos one_pos (Real.exp_pos x)
  refine ⟨fun theta b => ⟨?_, ?_⟩, fun b t1 t2 hlt => ?_, fun theta b1 b2 hlt => ?_⟩
  · exact div_pos one_pos (hden _)
  · rw [probability_correct, div_lt_one (hden _)]
    have := Real.exp_pos (-(theta - b))
    linarith
  · show probability_correct t1 b < probability_correct t2 b
    rw [probability_correct, probability_correct,
      div_lt_div_iff₀ (hden _) (hden _)]
    have hexp : Real.exp (-(t2 - b)) < Real.exp (-(t1 - b)) :=
      Real.exp_lt_exp.2 (by linarith)
    linarith
  · show probability_correct theta b2 < probability_correct theta b1
    rw [probability_correct, probability_correct,
      div_lt_div_iff₀ (hden _) (hden _)]
    have hexp : Real.exp (-(theta - b1)) < Real.exp (-(theta - b2)) :=
      Real.exp_lt_exp.2 (by linarith)
    linarith

/-- C9 (amended): `submit_answers` rejects the submission, before any
scoring and without creating a record, exactly when the number of stored
questions differs from the constant 100; the exam's configured
`total_questions` is never consulted (the outcome is identical for any two
exam rows). -/
theorem C9_item_count_guard (p : IRTProcessor) (est : List ℕ → List ℚ → ℚ)
    (exam exam2 : ExamRec) (questions : List Question) (answers : String) :
    (questions.length ≠ 100 →
      submit_answers p est exam questions answers =
        Except.error "De thi chua du 100 cau hoi") ∧
    (questions.length = 100 →
      submit_answers p est exam questions answers =
        Except.ok (process_submission p est answers questions)) ∧
    submit_answers p est exam questions answers =
      submit_answers p est exam2 questions answers := by
  refine ⟨fun h => ?_, fun h => ?_, rfl⟩
  · rw [submit_answers, if_pos h]
  · rw [submit_answers, if_neg (by omega)]

/-- C9 (witness): a three-question exam is rejected with the item-count
error. -/
theorem C9_item_count_guard_witness :
    submit_answers irt_processor estZero examC9 qsC9w "" =
      Except.error "De thi chua du 100 cau hoi" :=
  (C9_item_count_guard irt_processor estZero examC9 examC9 qsC9w "").1 (by decide)

/-- C9 (counterexample): `examC9` is configured with 50 items but has 100
stored questions — the stored count differs from the configured total, yet
the submission is accepted and scored rather than rejected. -/
theorem C9_counterexample :
    questionsC9.length ≠ examC9.total_questions ∧
      (submit_answers irt_processor estZero examC9 questionsC9 "").toOption.isSome = true := by
  constructor
  · decide
  · rw [submit_answers, if_neg (by simp [questionsC9])]
    rfl

end BackendIRT
